import Mathlib

/-!
Shallow embedding of the pairs-trading decision engine in
`src/pages/2_Crypto_Quant.py` (StatArb-Cloud-Bot).

Modelling conventions:
* Python floats are embedded as exact rationals (ℚ).  The spec's numeric
  claims are stated for exact arithmetic, and the engine's control flow
  uses only comparisons, +, -, *, /, and decimal rounding, all of which
  are expressed exactly over ℚ.
* pandas NaN / missing values are embedded as `Option` (`none` = NaN).
* Python's `round(x, n)` is round-half-to-even on the scaled value.
* A Python `ZeroDivisionError` inside the per-pair `try` block is caught
  by the blast-radius `except` and leaves all state unchanged; the
  embedding makes that branch an explicit no-op guard.
* The timestamp, label strings and plotting of a trade dict are
  presentation-only and omitted from the embedded `TradeRecord`.
-/

namespace StatArb

/-- Entry threshold constant `ENTRY_Z = 1.15` of `2_Crypto_Quant.py`. -/
def ENTRY_Z : ℚ := 23 / 20

/-- Exit threshold constant `EXIT_Z = 0.0` of `2_Crypto_Quant.py`. -/
def EXIT_Z : ℚ := 0

/-- Per-leg notional constant `LEG_ALLOCATION = 25000.0`. -/
def LEG_ALLOCATION : ℚ := 25000

/-- Python's `round` to an integer: round half to even (banker's rounding). -/
def pyRoundInt (x : ℚ) : ℤ :=
  let f := ⌊x⌋
  if x - f < 1/2 then f
  else if 1/2 < x - f then f + 1
  else if f % 2 = 0 then f else f + 1

/-- Python's `round(x, 5)` over exact rationals. -/
def round5 (x : ℚ) : ℚ := (pyRoundInt (x * 100000) : ℚ) / 100000

/-- Python's `round(x, 2)` over exact rationals. -/
def round2 (x : ℚ) : ℚ := (pyRoundInt (x * 100) : ℚ) / 100

/-- Per-pair mutable trading state: the dict
`{'position', 'units_1', 'entry_p1', 'units_2', 'entry_p2'}` stored in
`st.session_state.crypto_states`. -/
structure PairState where
  position : ℤ
  units_1 : ℚ
  entry_p1 : ℚ
  units_2 : ℚ
  entry_p2 : ℚ
deriving DecidableEq

/-- All-zero flat default created by `load_cloud_state`. -/
def flatState : PairState := ⟨0, 0, 0, 0, 0⟩

/-- Action field of a ledger row: `'ENTER'` or `'EXIT'`. -/
inductive TradeAction where
  | ENTER
  | EXIT
deriving DecidableEq

/-- Embedded trade dict appended to `st.session_state.crypto_trade_log`:
the pair key, the action, the two live prices, the quantities (present on
ENTER, the string `"-"` i.e. `none` on EXIT) and the reported P&L. -/
structure TradeRecord where
  pair : String × String
  action : TradeAction
  price1 : ℚ
  price2 : ℚ
  qty : Option (ℚ × ℚ)
  pnl : ℚ
deriving DecidableEq

/-- Result of evaluating the position state machine once for one pair:
the new `PairState`, the new shared capital, and the emitted ledger rows
(`[]` or a singleton). -/
structure StepResult where
  state : PairState
  capital : ℚ
  records : List TradeRecord
deriving DecidableEq

/-- One evaluation of the per-pair position state machine of `main`
(lines 256-343 of `2_Crypto_Quant.py`) at z-score `z` and live prices
`p1`, `p2` with shared capital `capital`.  The `p1 = 0 ∨ p2 = 0` guard
embeds the `ZeroDivisionError` of `LEG_ALLOCATION / live_p` being caught
by the per-pair `except`, which skips the pair without mutating state. -/
def stepPair (pr : String × String) (s : PairState) (capital z p1 p2 : ℚ) :
    StepResult :=
  if s.position = 0 then
    if z < -ENTRY_Z then
      if p1 = 0 ∨ p2 = 0 then ⟨s, capital, []⟩
      else
        let u1 := round5 (LEG_ALLOCATION / p1)
        let u2 := round5 (LEG_ALLOCATION / p2)
        let cost := u1 * p1 + u2 * p2
        if cost ≤ capital then
          ⟨⟨1, u1, p1, u2, p2⟩, capital - cost,
            [⟨pr, TradeAction.ENTER, p1, p2, some (u1, u2), 0⟩]⟩
        else ⟨s, capital, []⟩
    else if ENTRY_Z < z then
      if p1 = 0 ∨ p2 = 0 then ⟨s, capital, []⟩
      else
        let u1 := round5 (LEG_ALLOCATION / p1)
        let u2 := round5 (LEG_ALLOCATION / p2)
        let cost := u1 * p1 + u2 * p2
        if cost ≤ capital then
          ⟨⟨2, u1, p1, u2, p2⟩, capital - cost,
            [⟨pr, TradeAction.ENTER, p1, p2, some (u1, u2), 0⟩]⟩
        else ⟨s, capital, []⟩
    else ⟨s, capital, []⟩
  else if s.position = 1 then
    if EXIT_Z < z then
      let profit := (p1 - s.entry_p1) * s.units_1 + (s.entry_p2 - p2) * s.units_2
      ⟨flatState,
        capital + (s.units_1 * s.entry_p1 + s.units_2 * s.entry_p2) + profit,
        [⟨pr, TradeAction.EXIT, p1, p2, none, round2 profit⟩]⟩
    else ⟨s, capital, []⟩
  else if s.position = 2 then
    if z < EXIT_Z then
      let profit := (s.entry_p1 - p1) * s.units_1 + (p2 - s.entry_p2) * s.units_2
      ⟨flatState,
        capital + (s.units_1 * s.entry_p1 + s.units_2 * s.entry_p2) + profit,
        [⟨pr, TradeAction.EXIT, p1, p2, none, round2 profit⟩]⟩
    else ⟨s, capital, []⟩
  else ⟨s, capital, []⟩

/-- Per-pair cycle inputs as the engine sees them after the data pipeline:
latest z-score and the two latest live prices, `none` embedding NaN. -/
structure PairInputs where
  z : Option ℚ
  p1 : Option ℚ
  p2 : Option ℚ

/-- NaN guard of `main` (lines 240-247): when the latest z-score or either
live price is NaN the pair is skipped for the cycle (Python `continue`),
otherwise the position state machine runs. -/
def stepPairChecked (pr : String × String) (s : PairState) (capital : ℚ)
    (inp : PairInputs) : StepResult :=
  match inp.z, inp.p1, inp.p2 with
  | some z, some p1, some p2 => stepPair pr s capital z p1 p2
  | _, _, _ => ⟨s, capital, []⟩

/-- Session state mutated by one polling cycle of `main`: shared cash
(`crypto_portfolio`), the per-pair states (`crypto_states`, total with the
flat default of `dict.get`) and the trade log (`crypto_trade_log`). -/
@[ext] structure EngineState where
  capital : ℚ
  states : (String × String) → PairState
  log : List TradeRecord

/-- Effect of evaluating one pair inside the cycle loop of `main`: the pair
state is read before any mutation, the state machine runs once, and the
capital, that pair's state, and the trade log are updated. -/
def applyStep (inputs : (String × String) → PairInputs) (es : EngineState)
    (pr : String × String) : EngineState :=
  let r := stepPairChecked pr (es.states pr) es.capital (inputs pr)
  ⟨r.capital, fun q => if q = pr then r.state else es.states q, es.log ++ r.records⟩

/-- One full polling cycle of `main` over the watchlist: sequential
left-to-right evaluation of each pair against the shared session state. -/
def runCycle (inputs : (String × String) → PairInputs)
    (pairs : List (String × String)) (es : EngineState) : EngineState :=
  pairs.foldl (applyStep inputs) es

/-- Pair states (with the capital alongside) reachable from the all-zero
flat default of `load_cloud_state` by entry/exit transitions of the
position state machine, with arbitrary z-scores and live prices. -/
inductive Reachable : PairState → ℚ → Prop where
  | init (c : ℚ) : Reachable flatState c
  | step (pr : String × String) (s : PairState) (c z p1 p2 : ℚ) :
      Reachable s c →
      Reachable (stepPair pr s c z p1 p2).state (stepPair pr s c z p1 p2).capital

/-- Rows of two history columns where both legs are present: the
`hist_data[[a1, a2]].dropna()` of `calibrate_pairs_v2`, with `none` for a
missing (NaN) observation. -/
def alignedRows (c1 c2 : List (Option ℚ)) : List (ℚ × ℚ) :=
  (c1.zip c2).filterMap (fun rc =>
    match rc with
    | (some x, some y) => some (x, y)
    | _ => none)

/-- Slope of the no-intercept ordinary least squares fit of leg 1 on leg 2
(`sm.OLS(pair_data[a1], pair_data[a2]).fit().params.iloc[0]`): the
normal-equation solution Σ(y·x) / Σ(x²).  statsmodels solves by
pseudoinverse, which yields 0 for an all-zero regressor — the same value
ℚ's zero-division convention gives, so no separate failure branch is
needed at this level. -/
def olsSlope (rows : List (ℚ × ℚ)) : ℚ :=
  ((rows.map (fun rc => rc.1 * rc.2)).sum) / ((rows.map (fun rc => rc.2 * rc.2)).sum)

/-- Per-pair body of `calibrate_pairs_v2` (lines 141-152): select the two
columns of the downloaded history (a missing column raises and the
`except` returns the 1.0 safety fallback), drop rows with a missing leg,
and fit only when strictly more than 50 aligned rows remain. -/
def calibratePair (hist : String → Option (List (Option ℚ)))
    (a1 a2 : String) : ℚ :=
  match hist a1, hist a2 with
  | some c1, some c2 =>
      if 50 < (alignedRows c1 c2).length then olsSlope (alignedRows c1 c2) else 1
  | _, _ => 1

/-- Watchlist-level `calibrate_pairs_v2`: one ratio per configured pair. -/
def calibrate_pairs_v2 (hist : String → Option (List (Option ℚ)))
    (pairs : List (String × String)) : List ((String × String) × ℚ) :=
  pairs.map (fun pr => (pr, calibratePair hist pr.1 pr.2))

/-- Spread series `live_data[asset1] - ratio * live_data[asset2]` with
hedge coefficient `b`. -/
def spreadSeries (b : ℚ) (p1s p2s : List ℚ) : List ℚ :=
  List.zipWith (fun x y => x - b * y) p1s p2s

/-- Trailing window of width `w` ending at index `i` of a pandas rolling
computation: defined only once `w` observations exist. -/
def windowAt (xs : List ℚ) (w i : ℕ) : Option (List ℚ) :=
  if w ≤ i + 1 ∧ i < xs.length then some ((xs.take (i + 1)).drop (i + 1 - w)) else none

/-- Arithmetic mean of a list of rationals. -/
def listMean (l : List ℚ) : ℚ := l.sum / (l.length : ℚ)

/-- Sample variance (pandas default, ddof = 1) of a list of rationals. -/
def listSampleVar (l : List ℚ) : ℚ :=
  ((l.map (fun x => (x - listMean l) ^ 2)).sum) / ((l.length : ℚ) - 1)

/-- Rolling mean at index `i`: `spread_series.rolling(window=20).mean()`,
with `none` embedding the leading NaNs. -/
def rollingMeanAt (xs : List ℚ) (i : ℕ) : Option ℚ :=
  (windowAt xs 20 i).map listMean

/-- Rolling sample variance at index `i`, the square of the code's rolling
standard deviation `spread_series.rolling(window=20).std()`.  The
standard deviation is √(variance): it is NaN exactly where the variance
is undefined and zero exactly where the variance is zero, and only those
two facts feed the pipeline's `.replace(0, np.nan)` and `.dropna()`, so
the embedding carries the (rational) variance where the code carries the
(irrational) standard deviation. -/
def rollingVarAt (xs : List ℚ) (i : ℕ) : Option ℚ :=
  (windowAt xs 20 i).map listSampleVar

/-- Denominator series after `.replace(0, np.nan)`: the rolling standard
deviation with the exact zeros turned into NaN. -/
def stdReplacedAt (xs : List ℚ) (i : ℕ) : Option ℚ :=
  (rollingVarAt xs i).bind (fun v => if v = 0 then none else some v)

/-- Indices surviving `((spread - sma) / std).dropna()`: the z-score at
index `i` is defined iff the replaced denominator is defined there (the
numerator `spread - sma` is defined wherever the window is complete). -/
def zDefinedIdx (xs : List ℚ) : List ℕ :=
  (List.range xs.length).filter (fun i => (stdReplacedAt xs i).isSome)

/-- Persisted cloud blob parsed from cell A1: the saved cash balance and
the saved per-pair states (keys de-serialized from the `"A|B"` form back
to ordered pairs, as `load_cloud_state` does with `k.split('|')`). -/
structure StateBlob where
  capital : ℚ
  states : List ((String × String) × PairState)

/-- Restore step of `load_cloud_state` (lines 72-100) on a successfully
parsed blob: every configured pair starts at the flat default, then only
watchlist pairs found in the blob are overwritten; the saved balance is
taken as-is. -/
def load_cloud_state (pairs : List (String × String)) (blob : StateBlob) :
    ℚ × List ((String × String) × PairState) :=
  (blob.capital,
    pairs.map (fun p =>
      (p, match blob.states.lookup p with
          | some v => v
          | none => flatState)))

/-! Branch lemmas for the position state machine. -/

theorem stepPair_flat_noop (pr : String × String) (s : PairState) (c z p1 p2 : ℚ)
    (hs : s.position = 0) (h1 : ¬ z < -ENTRY_Z) (h2 : ¬ ENTRY_Z < z) :
    stepPair pr s c z p1 p2 = ⟨s, c, []⟩ := by
  simp [stepPair, hs, h1, h2]

theorem stepPair_div_noop (pr : String × String) (s : PairState) (c z p1 p2 : ℚ)
    (hs : s.position = 0) (hp : p1 = 0 ∨ p2 = 0) :
    stepPair pr s c z p1 p2 = ⟨s, c, []⟩ := by
  by_cases h1 : z < -ENTRY_Z
  · simp [stepPair, hs, h1, hp]
  · by_cases h2 : ENTRY_Z < z
    · simp [stepPair, hs, h1, h2, hp]
    · exact stepPair_flat_noop pr s c z p1 p2 hs h1 h2

theorem stepPair_reject_noop (pr : String × String) (s : PairState) (c z p1 p2 : ℚ)
    (hs : s.position = 0)
    (hcap : c < round5 (LEG_ALLOCATION / p1) * p1 + round5 (LEG_ALLOCATION / p2) * p2) :
    stepPair pr s c z p1 p2 = ⟨s, c, []⟩ := by
  by_cases hp : p1 = 0 ∨ p2 = 0
  · exact stepPair_div_noop pr s c z p1 p2 hs hp
  · by_cases h1 : z < -ENTRY_Z
    · simp [stepPair, hs, h1, hp, not_le.mpr hcap]
    · by_cases h2 : ENTRY_Z < z
      · simp [stepPair, hs, h1, h2, hp, not_le.mpr hcap]
      · exact stepPair_flat_noop pr s c z p1 p2 hs h1 h2

theorem stepPair_entry1 (pr : String × String) (s : PairState) (c z p1 p2 : ℚ)
    (hs : s.position = 0) (hz : z < -ENTRY_Z) (hp : ¬ (p1 = 0 ∨ p2 = 0))
    (hcost : round5 (LEG_ALLOCATION / p1) * p1 + round5 (LEG_ALLOCATION / p2) * p2 ≤ c) :
    stepPair pr s c z p1 p2 =
      ⟨⟨1, round5 (LEG_ALLOCATION / p1), p1, round5 (LEG_ALLOCATION / p2), p2⟩,
        c - (round5 (LEG_ALLOCATION / p1) * p1 + round5 (LEG_ALLOCATION / p2) * p2),
        [⟨pr, TradeAction.ENTER, p1, p2,
          some (round5 (LEG_ALLOCATION / p1), round5 (LEG_ALLOCATION / p2)), 0⟩]⟩ := by
  simp [stepPair, hs, hz, hp, hcost]

theorem stepPair_entry2 (pr : String × String) (s : PairState) (c z p1 p2 : ℚ)
    (hs : s.position = 0) (hz : ENTRY_Z < z) (hp : ¬ (p1 = 0 ∨ p2 = 0))
    (hcost : round5 (LEG_ALLOCATION / p1) * p1 + round5 (LEG_ALLOCATION / p2) * p2 ≤ c) :
    stepPair pr s c z p1 p2 =
      ⟨⟨2, round5 (LEG_ALLOCATION / p1), p1, round5 (LEG_ALLOCATION / p2), p2⟩,
        c - (round5 (LEG_ALLOCATION / p1) * p1 + round5 (LEG_ALLOCATION / p2) * p2),
        [⟨pr, TradeAction.ENTER, p1, p2,
          some (round5 (LEG_ALLOCATION / p1), round5 (LEG_ALLOCATION / p2)), 0⟩]⟩ := by
  have hz1 : ¬ z < -ENTRY_Z := by
    simp only [not_lt]
    calc -ENTRY_Z ≤ ENTRY_Z := by norm_num [ENTRY_Z]
    _ ≤ z := le_of_lt hz
  simp [stepPair, hs, hz1, hz, hp, hcost]

theorem stepPair_exit1 (pr : String × String) (s : PairState) (c z p1 p2 : ℚ)
    (hs : s.position = 1) (hz : EXIT_Z < z) :
    stepPair pr s c z p1 p2 =
      ⟨flatState,
        c + (s.units_1 * s.entry_p1 + s.units_2 * s.entry_p2) +
          ((p1 - s.entry_p1) * s.units_1 + (s.entry_p2 - p2) * s.units_2),
        [⟨pr, TradeAction.EXIT, p1, p2, none,
          round2 ((p1 - s.entry_p1) * s.units_1 + (s.entry_p2 - p2) * s.units_2)⟩]⟩ := by
  simp [stepPair, hs, hz]

theorem stepPair_exit2 (pr : String × String) (s : PairState) (c z p1 p2 : ℚ)
    (hs : s.position = 2) (hz : z < EXIT_Z) :
    stepPair pr s c z p1 p2 =
      ⟨flatState,
        c + (s.units_1 * s.entry_p1 + s.units_2 * s.entry_p2) +
          ((s.entry_p1 - p1) * s.units_1 + (p2 - s.entry_p2) * s.units_2),
        [⟨pr, TradeAction.EXIT, p1, p2, none,
          round2 ((s.entry_p1 - p1) * s.units_1 + (p2 - s.entry_p2) * s.units_2)⟩]⟩ := by
  simp [stepPair, hs, hz]

theorem stepPair_pos1_noop (pr : String × String) (s : PairState) (c z p1 p2 : ℚ)
    (hs : s.position = 1) (hz : ¬ EXIT_Z < z) :
    stepPair pr s c z p1 p2 = ⟨s, c, []⟩ := by
  simp [stepPair, hs, hz]

theorem stepPair_pos2_noop (pr : String × String) (s : PairState) (c z p1 p2 : ℚ)
    (hs : s.position = 2) (hz : ¬ z < EXIT_Z) :
    stepPair pr s c z p1 p2 = ⟨s, c, []⟩ := by
  simp [stepPair, hs, hz]

theorem stepPair_other_noop (pr : String × String) (s : PairState) (c z p1 p2 : ℚ)
    (h0 : s.position ≠ 0) (h1 : s.position ≠ 1) (h2 : s.position ≠ 2) :
    stepPair pr s c z p1 p2 = ⟨s, c, []⟩ := by
  simp [stepPair, h0, h1, h2]

theorem alignedRows_replicate (n : ℕ) (x y : ℚ) :
    alignedRows (List.replicate n (some x)) (List.replicate n (some y)) =
      List.replicate n (x, y) := by
  induction n with
  | zero => rfl
  | succ n ih =>
      simp only [List.replicate_succ, alignedRows, List.zip_cons_cons,
        List.filterMap_cons] at ih ⊢
      rw [ih]

/-- Concrete calibration download: both columns present, 50 aligned rows,
leg 1 identically twice leg 2. -/
def histC1cex : String → Option (List (Option ℚ)) := fun a =>
  if a = "X" then some (List.replicate 50 (some 2))
  else if a = "Y" then some (List.replicate 50 (some 1))
  else none

/-- Concrete calibration download with 51 aligned rows, leg 1 = 3·leg 2. -/
def histC1wit : String → Option (List (Option ℚ)) := fun a =>
  if a = "X" then some (List.replicate 51 (some 3))
  else if a = "Y" then some (List.replicate 51 (some 1))
  else none

/-- C1 counterexample: a pair with exactly 50 aligned observations and a
perfectly fittable regression (slope 2) is calibrated to the fallback 1.0,
because `calibrate_pairs_v2` requires strictly more than 50 rows
(`len(pair_data) > 50`), not "at least 50" as the claim states. -/
theorem calibrate_at_50_obs_cex :
    (alignedRows (List.replicate 50 (some (2 : ℚ))) (List.replicate 50 (some (1 : ℚ)))).length = 50 ∧
    olsSlope (alignedRows (List.replicate 50 (some (2 : ℚ))) (List.replicate 50 (some (1 : ℚ)))) = 2 ∧
    calibratePair histC1cex "X" "Y" = 1 := by
  refine ⟨?_, ?_, ?_⟩
  · rw [alignedRows_replicate]; simp
  · rw [alignedRows_replicate]
    simp only [olsSlope, List.map_replicate, List.sum_replicate, nsmul_eq_mul]
    norm_num
  · have hx : histC1cex "X" = some (List.replicate 50 (some 2)) := rfl
    have hy : histC1cex "Y" = some (List.replicate 50 (some 1)) := rfl
    simp only [calibratePair, hx, hy, alignedRows_replicate, List.length_replicate]
    norm_num

/-- C1 (amended): for a pair whose two history columns downloaded, the
calibrated ratio is the fallback 1.0 whenever at most 50 aligned
observations remain after dropping rows with a missing leg, and is the
OLS slope of leg 1 regressed on leg 2 whenever strictly more than 50
aligned observations remain. -/
theorem calibratePair_boundary (hist : String → Option (List (Option ℚ)))
    (a1 a2 : String) (c1 c2 : List (Option ℚ))
    (h1 : hist a1 = some c1) (h2 : hist a2 = some c2) :
    ((alignedRows c1 c2).length ≤ 50 → calibratePair hist a1 a2 = 1) ∧
    (50 < (alignedRows c1 c2).length →
      calibratePair hist a1 a2 = olsSlope (alignedRows c1 c2)) := by
  simp only [calibratePair, h1, h2]
  constructor
  · intro h; rw [if_neg (by omega)]
  · intro h; rw [if_pos h]

/-- C1 witness: at 51 aligned observations of leg 1 = 3·leg 2 the
calibrated ratio is the OLS slope (which is 3). -/
theorem calibratePair_boundary_witness :
    calibratePair histC1wit "X" "Y" =
      olsSlope (alignedRows (List.replicate 51 (some (3 : ℚ))) (List.replicate 51 (some (1 : ℚ)))) ∧
    olsSlope (alignedRows (List.replicate 51 (some (3 : ℚ))) (List.replicate 51 (some (1 : ℚ)))) = 3 := by
  constructor
  · exact (calibratePair_boundary histC1wit "X" "Y" _ _ rfl rfl).2
      (by rw [alignedRows_replicate]; simp)
  · rw [alignedRows_replicate]
    simp only [olsSlope, List.map_replicate, List.sum_replicate, nsmul_eq_mul]
    norm_num

/-- C2 counterexample: starting flat with capital 60000, an accepted entry
at z = -2 and prices (1, 1) costs 50000 and leaves 10000; the matching
exit at prices (1, 10) realizes a short-leg loss of 225000, crediting
principal + P&L drives the shared capital to -165000 < 0.  The capital
invariant is enforced only on entry, not on exit. -/
theorem capital_negative_after_exit_cex :
    (stepPair ("BTC-USD", "ETH-USD") flatState 60000 (-2) 1 1).capital = 10000 ∧
    (stepPair ("BTC-USD", "ETH-USD") flatState 60000 (-2) 1 1).state =
      (⟨1, 25000, 1, 25000, 1⟩ : PairState) ∧
    (stepPair ("BTC-USD", "ETH-USD") (⟨1, 25000, 1, 25000, 1⟩ : PairState) 10000 1 1 10).capital =
      -165000 := by
  refine ⟨?_, ?_, ?_⟩ <;>
    norm_num [stepPair, ENTRY_Z, EXIT_Z, LEG_ALLOCATION, flatState, round5, pyRoundInt]

/-- C2 (amended): an entry whose cost exceeds available capital is
rejected outright (no partial fill), and after every entry evaluation
from a flat state nonnegative capital is preserved; the exit transition,
however, credits principal + realized P&L and can drive capital negative
(see the counterexample), so nonnegativity is not invariant under exits. -/
theorem entry_preserves_nonneg_capital (pr : String × String) (s : PairState)
    (c z p1 p2 : ℚ) (hc : 0 ≤ c) (hs : s.position = 0) :
    0 ≤ (stepPair pr s c z p1 p2).capital ∧
    (c < round5 (LEG_ALLOCATION / p1) * p1 + round5 (LEG_ALLOCATION / p2) * p2 →
      stepPair pr s c z p1 p2 = ⟨s, c, []⟩) := by
  constructor
  · by_cases hp : p1 = 0 ∨ p2 = 0
    · rw [stepPair_div_noop pr s c z p1 p2 hs hp]; exact hc
    · by_cases hcost :
        round5 (LEG_ALLOCATION / p1) * p1 + round5 (LEG_ALLOCATION / p2) * p2 ≤ c
      · by_cases h1 : z < -ENTRY_Z
        · rw [stepPair_entry1 pr s c z p1 p2 hs h1 hp hcost]
          simp only
          linarith
        · by_cases h2 : ENTRY_Z < z
          · rw [stepPair_entry2 pr s c z p1 p2 hs h2 hp hcost]
            simp only
            linarith
          · rw [stepPair_flat_noop pr s c z p1 p2 hs h1 h2]; exact hc
      · push_neg at hcost
        rw [stepPair_reject_noop pr s c z p1 p2 hs hcost]; exact hc
  · intro hcap
    exact stepPair_reject_noop pr s c z p1 p2 hs hcap

/-- C2 witness: a flat pair evaluated at z = -2 and prices (1, 1) with
capital 60000 accepts the entry and retains nonnegative capital; with
capital 1000 the 50000-cost entry is rejected as a no-op. -/
theorem entry_preserves_nonneg_capital_witness :
    0 ≤ (stepPair ("BTC-USD", "ETH-USD") flatState 60000 (-2) 1 1).capital ∧
    stepPair ("BTC-USD", "ETH-USD") flatState 1000 (-2) 1 1 = ⟨flatState, 1000, []⟩ := by
  constructor
  · exact (entry_preserves_nonneg_capital ("BTC-USD", "ETH-USD") flatState
      60000 (-2) 1 1 (by norm_num) rfl).1
  · exact (entry_preserves_nonneg_capital ("BTC-USD", "ETH-USD") flatState
      1000 (-2) 1 1 (by norm_num) rfl).2
      (by norm_num [round5, pyRoundInt, LEG_ALLOCATION])

/-- C3: capital conservation for one pair.  Starting flat with capital C,
an accepted entry at prices (p1, p2) followed by the matching exit at
prices (q1, q2) leaves capital exactly C + realized P&L: for position 1
the P&L is (q1 - p1)·units_1 + (p2 - q2)·units_2, and symmetrically for
position 2, with no drift in exact arithmetic (the units being the
5-decimal roundings of LEG_ALLOCATION over the entry prices). -/
theorem capital_conservation (pr : String × String) (C z1 z2 p1 p2 q1 q2 : ℚ)
    (hp : ¬ (p1 = 0 ∨ p2 = 0))
    (hcost : round5 (LEG_ALLOCATION / p1) * p1 + round5 (LEG_ALLOCATION / p2) * p2 ≤ C) :
    (z1 < -ENTRY_Z → EXIT_Z < z2 →
      (stepPair pr (stepPair pr flatState C z1 p1 p2).state
          (stepPair pr flatState C z1 p1 p2).capital z2 q1 q2).capital =
        C + ((q1 - p1) * round5 (LEG_ALLOCATION / p1) +
          (p2 - q2) * round5 (LEG_ALLOCATION / p2))) ∧
    (ENTRY_Z < z1 → z2 < EXIT_Z →
      (stepPair pr (stepPair pr flatState C z1 p1 p2).state
          (stepPair pr flatState C z1 p1 p2).capital z2 q1 q2).capital =
        C + ((p1 - q1) * round5 (LEG_ALLOCATION / p1) +
          (q2 - p2) * round5 (LEG_ALLOCATION / p2))) := by
  constructor
  · intro hz1 hz2
    rw [stepPair_entry1 pr flatState C z1 p1 p2 rfl hz1 hp hcost]
    rw [stepPair_exit1 pr _ _ z2 q1 q2 rfl hz2]
    dsimp only
    ring
  · intro hz1 hz2
    rw [stepPair_entry2 pr flatState C z1 p1 p2 rfl hz1 hp hcost]
    rw [stepPair_exit2 pr _ _ z2 q1 q2 rfl hz2]
    dsimp only
    ring

/-- C3 witness: with C = 60000, entry at z = -2 and prices (1, 1), exit at
z = 1 and prices (2, 1): capital ends at 60000 + 25000. -/
theorem capital_conservation_witness :
    (stepPair ("BTC-USD", "ETH-USD")
        (stepPair ("BTC-USD", "ETH-USD") flatState 60000 (-2) 1 1).state
        (stepPair ("BTC-USD", "ETH-USD") flatState 60000 (-2) 1 1).capital 1 2 1).capital =
      60000 + ((2 - 1) * round5 (LEG_ALLOCATION / 1) + (1 - 1) * round5 (LEG_ALLOCATION / 1)) := by
  exact (capital_conservation ("BTC-USD", "ETH-USD") 60000 (-2) 1 1 1 2 1
      (by norm_num)
      (by norm_num [round5, pyRoundInt, LEG_ALLOCATION])).1
    (by norm_num [ENTRY_Z]) (by norm_num [EXIT_Z])

/-- C4 counterexample: in position 1 (long leg 1 / short leg 2) a z-score
exactly equal to ENTRY_Z does fire a transition: 1.15 > EXIT_Z = 0
triggers the exit, the state is reset to flat and an EXIT row is logged.
The claim's "no transition at exact threshold equality for every pair
state" is therefore false; only the trigger that uses a given threshold
treats it as an exclusive boundary. -/
theorem exit_fires_at_entry_threshold_cex :
    (stepPair ("BTC-USD", "ETH-USD") (⟨1, 1, 1, 1, 1⟩ : PairState) 0 ENTRY_Z 2 1).state ≠
      (⟨1, 1, 1, 1, 1⟩ : PairState) ∧
    (stepPair ("BTC-USD", "ETH-USD") (⟨1, 1, 1, 1, 1⟩ : PairState) 0 ENTRY_Z 2 1).records ≠
      [] := by
  constructor <;>
    norm_num [stepPair, ENTRY_Z, EXIT_Z, flatState, PairState.mk.injEq]

/-- C4 (amended): each threshold is an exclusive boundary for the trigger
that uses it: a flat pair performs no entry at z exactly ±ENTRY_Z (and
none at EXIT_Z), and a non-flat pair performs no exit at z exactly
EXIT_Z; in those cases PairState, capital and the trade log are
unchanged and no alert-producing record is emitted. -/
theorem threshold_equality_guards (pr : String × String) (s : PairState) (c p1 p2 : ℚ) :
    (s.position = 0 →
      stepPair pr s c ENTRY_Z p1 p2 = ⟨s, c, []⟩ ∧
      stepPair pr s c (-ENTRY_Z) p1 p2 = ⟨s, c, []⟩ ∧
      stepPair pr s c EXIT_Z p1 p2 = ⟨s, c, []⟩) ∧
    (s.position ≠ 0 → stepPair pr s c EXIT_Z p1 p2 = ⟨s, c, []⟩) := by
  constructor
  · intro hs
    exact ⟨stepPair_flat_noop pr s c ENTRY_Z p1 p2 hs (by norm_num [ENTRY_Z])
        (by norm_num [ENTRY_Z]),
      stepPair_flat_noop pr s c (-ENTRY_Z) p1 p2 hs (by norm_num [ENTRY_Z])
        (by norm_num [ENTRY_Z]),
      stepPair_flat_noop pr s c EXIT_Z p1 p2 hs (by norm_num [ENTRY_Z, EXIT_Z])
        (by norm_num [ENTRY_Z, EXIT_Z])⟩
  · intro hs
    by_cases h1 : s.position = 1
    · exact stepPair_pos1_noop pr s c EXIT_Z p1 p2 h1 (by norm_num [EXIT_Z])
    · by_cases h2 : s.position = 2
      · exact stepPair_pos2_noop pr s c EXIT_Z p1 p2 h2 (by norm_num [EXIT_Z])
      · exact stepPair_other_noop pr s c EXIT_Z p1 p2 hs h1 h2

/-- C4 witness: a flat pair at z exactly ENTRY_Z is a strict no-op, and a
position-1 pair at z exactly EXIT_Z is a strict no-op. -/
theorem threshold_equality_guards_witness :
    stepPair ("BTC-USD", "ETH-USD") flatState 1000 ENTRY_Z 2 1 = ⟨flatState, 1000, []⟩ ∧
    stepPair ("BTC-USD", "ETH-USD") (⟨1, 1, 1, 1, 1⟩ : PairState) 1000 EXIT_Z 2 1 =
      ⟨(⟨1, 1, 1, 1, 1⟩ : PairState), 1000, []⟩ := by
  constructor
  · exact ((threshold_equality_guards ("BTC-USD", "ETH-USD") flatState 1000 2 1).1 rfl).1
  · exact (threshold_equality_guards ("BTC-USD", "ETH-USD") (⟨1, 1, 1, 1, 1⟩ : PairState)
      1000 2 1).2 (by norm_num)

theorem flatInv_flatState :
    flatState.position = 0 ↔
      (flatState.units_1 = 0 ∧ flatState.units_2 = 0 ∧
        flatState.entry_p1 = 0 ∧ flatState.entry_p2 = 0) := by
  simp [flatState]

theorem flatInv_step (pr : String × String) (s : PairState) (c z p1 p2 : ℚ)
    (ih : s.position = 0 ↔
      (s.units_1 = 0 ∧ s.units_2 = 0 ∧ s.entry_p1 = 0 ∧ s.entry_p2 = 0)) :
    (stepPair pr s c z p1 p2).state.position = 0 ↔
      ((stepPair pr s c z p1 p2).state.units_1 = 0 ∧
        (stepPair pr s c z p1 p2).state.units_2 = 0 ∧
        (stepPair pr s c z p1 p2).state.entry_p1 = 0 ∧
        (stepPair pr s c z p1 p2).state.entry_p2 = 0) := by
  by_cases hs0 : s.position = 0
  · by_cases hp : p1 = 0 ∨ p2 = 0
    · rw [stepPair_div_noop pr s c z p1 p2 hs0 hp]; exact ih
    · push_neg at hp
      by_cases hcost :
          round5 (LEG_ALLOCATION / p1) * p1 + round5 (LEG_ALLOCATION / p2) * p2 ≤ c
      · by_cases h1 : z < -ENTRY_Z
        · rw [stepPair_entry1 pr s c z p1 p2 hs0 h1 (by push_neg; exact hp) hcost]
          dsimp only
          constructor
          · intro h; exact absurd h (by norm_num)
          · rintro ⟨-, -, hq1, -⟩; exact absurd hq1 hp.1
        · by_cases h2 : ENTRY_Z < z
          · rw [stepPair_entry2 pr s c z p1 p2 hs0 h2 (by push_neg; exact hp) hcost]
            dsimp only
            constructor
            · intro h; exact absurd h (by norm_num)
            · rintro ⟨-, -, hq1, -⟩; exact absurd hq1 hp.1
          · rw [stepPair_flat_noop pr s c z p1 p2 hs0 h1 h2]; exact ih
      · push_neg at hcost
        rw [stepPair_reject_noop pr s c z p1 p2 hs0 hcost]; exact ih
  · by_cases hs1 : s.position = 1
    · by_cases hz : EXIT_Z < z
      · rw [stepPair_exit1 pr s c z p1 p2 hs1 hz]; exact flatInv_flatState
      · rw [stepPair_pos1_noop pr s c z p1 p2 hs1 hz]; exact ih
    · by_cases hs2 : s.position = 2
      · by_cases hz : z < EXIT_Z
        · rw [stepPair_exit2 pr s c z p1 p2 hs2 hz]; exact flatInv_flatState
        · rw [stepPair_pos2_noop pr s c z p1 p2 hs2 hz]; exact ih
      · rw [stepPair_other_noop pr s c z p1 p2 hs0 hs1 hs2]; exact ih

/-- C5: flatness invariant.  For every PairState reachable from the
all-zero initial state via entry/exit transitions of the position state
machine, position = 0 holds iff units_1, units_2, entry_p1 and entry_p2
are all zero; every transition preserves the equivalence. -/
theorem flatness_invariant (s : PairState) (c : ℚ) (h : Reachable s c) :
    s.position = 0 ↔
      (s.units_1 = 0 ∧ s.units_2 = 0 ∧ s.entry_p1 = 0 ∧ s.entry_p2 = 0) := by
  induction h with
  | init c => exact flatInv_flatState
  | step pr s c z p1 p2 hr ih => exact flatInv_step pr s c z p1 p2 ih

/-- C5 witness: the invariant holds at the state reached by one accepted
entry from the all-zero initial state. -/
theorem flatness_invariant_witness :
    (stepPair ("BTC-USD", "ETH-USD") flatState 60000 (-2) 1 1).state.position = 0 ↔
      ((stepPair ("BTC-USD", "ETH-USD") flatState 60000 (-2) 1 1).state.units_1 = 0 ∧
        (stepPair ("BTC-USD", "ETH-USD") flatState 60000 (-2) 1 1).state.units_2 = 0 ∧
        (stepPair ("BTC-USD", "ETH-USD") flatState 60000 (-2) 1 1).state.entry_p1 = 0 ∧
        (stepPair ("BTC-USD", "ETH-USD") flatState 60000 (-2) 1 1).state.entry_p2 = 0) :=
  flatness_invariant _ _
    (Reachable.step ("BTC-USD", "ETH-USD") flatState 60000 (-2) 1 1 (Reachable.init 60000))

/-- C6: insufficient-capital no-op.  When a flat pair's entry signal fires
(|z| > ENTRY_Z) but capital is below the rounded-units entry cost, the
cycle emits no trade record, and repeating the same evaluation any number
of times leaves the pair state and capital exactly unchanged. -/
theorem insufficient_capital_idempotent (pr : String × String) (s : PairState)
    (c z p1 p2 : ℚ) (hs : s.position = 0)
    (hsig : z < -ENTRY_Z ∨ ENTRY_Z < z)
    (hcap : c < round5 (LEG_ALLOCATION / p1) * p1 + round5 (LEG_ALLOCATION / p2) * p2) :
    (stepPair pr s c z p1 p2).records = [] ∧
    ∀ n : ℕ,
      (fun sc : PairState × ℚ =>
          ((stepPair pr sc.1 sc.2 z p1 p2).state,
            (stepPair pr sc.1 sc.2 z p1 p2).capital))^[n] (s, c) = (s, c) := by
  have hstep : stepPair pr s c z p1 p2 = ⟨s, c, []⟩ :=
    stepPair_reject_noop pr s c z p1 p2 hs hcap
  constructor
  · rw [hstep]
  · intro n
    apply Function.iterate_fixed
    show ((stepPair pr s c z p1 p2).state, (stepPair pr s c z p1 p2).capital) = (s, c)
    rw [hstep]

/-- C6 witness: a 50000-cost entry signal against capital 1000 logs
nothing and three repeated presentations leave the state fixed. -/
theorem insufficient_capital_idempotent_witness :
    (stepPair ("BTC-USD", "ETH-USD") flatState 1000 (-2) 1 1).records = [] ∧
    (fun sc : PairState × ℚ =>
        ((stepPair ("BTC-USD", "ETH-USD") sc.1 sc.2 (-2) 1 1).state,
          (stepPair ("BTC-USD", "ETH-USD") sc.1 sc.2 (-2) 1 1).capital))^[3]
      (flatState, 1000) = (flatState, 1000) := by
  have h := insufficient_capital_idempotent ("BTC-USD", "ETH-USD") flatState
    1000 (-2) 1 1 rfl (Or.inl (by norm_num [ENTRY_Z]))
    (by norm_num [round5, pyRoundInt, LEG_ALLOCATION])
  exact ⟨h.1, h.2 3⟩

theorem stepPairChecked_none (pr : String × String) (s : PairState) (c : ℚ)
    (inp : PairInputs)
    (h : inp.z = none ∨ inp.p1 = none ∨ inp.p2 = none) :
    stepPairChecked pr s c inp = ⟨s, c, []⟩ := by
  obtain ⟨z, p1, p2⟩ := inp
  cases z <;> cases p1 <;> cases p2 <;> simp_all [stepPairChecked]

theorem applyStep_id (inputs : (String × String) → PairInputs) (es : EngineState)
    (pr : String × String)
    (h : stepPairChecked pr (es.states pr) es.capital (inputs pr) =
      ⟨es.states pr, es.capital, []⟩) :
    applyStep inputs es pr = es := by
  unfold applyStep
  rw [h]
  ext q
  · rfl
  · dsimp only
    by_cases hq : q = pr <;> simp [hq]
  · simp

theorem runCycle_cons (inputs : (String × String) → PairInputs)
    (pr : String × String) (l : List (String × String)) (es : EngineState) :
    runCycle inputs (pr :: l) es = runCycle inputs l (applyStep inputs es pr) := rfl

theorem runCycle_append (inputs : (String × String) → PairInputs)
    (l1 l2 : List (String × String)) (es : EngineState) :
    runCycle inputs (l1 ++ l2) es = runCycle inputs l2 (runCycle inputs l1 es) := by
  simp [runCycle, List.foldl_append]

theorem applyStep_states_ne (inputs : (String × String) → PairInputs)
    (es : EngineState) (q pr : String × String) (h : pr ≠ q) :
    (applyStep inputs es q).states pr = es.states pr := by
  simp [applyStep, h]

theorem runCycle_states_not_mem (inputs : (String × String) → PairInputs)
    (l : List (String × String)) (es : EngineState) (pr : String × String)
    (h : pr ∉ l) :
    (runCycle inputs l es).states pr = es.states pr := by
  induction l generalizing es with
  | nil => rfl
  | cons q t ih =>
      rw [runCycle_cons]
      have hq : pr ≠ q := fun he => h (he ▸ List.mem_cons_self q t)
      rw [ih _ (fun hm => h (List.mem_cons_of_mem q hm))]
      exact applyStep_states_ne inputs es q pr hq

/-- C7: NaN skip.  If a pair's latest z-score or either live price is NaN,
the cycle is identical to the cycle in which that pair does not appear at
all: its PairState, the shared capital and the trade log are untouched,
and the remaining pairs of the same cycle are still evaluated in order. -/
theorem nan_skip (inputs : (String × String) → PairInputs) (pr : String × String)
    (l1 l2 : List (String × String)) (es : EngineState)
    (hbad : (inputs pr).z = none ∨ (inputs pr).p1 = none ∨ (inputs pr).p2 = none) :
    runCycle inputs (l1 ++ pr :: l2) es = runCycle inputs (l1 ++ l2) es ∧
    (pr ∉ l1 → pr ∉ l2 →
      (runCycle inputs (l1 ++ pr :: l2) es).states pr = es.states pr) := by
  have hskip : ∀ es' : EngineState, applyStep inputs es' pr = es' := fun es' =>
    applyStep_id inputs es' pr (stepPairChecked_none pr (es'.states pr) es'.capital
      (inputs pr) hbad)
  have hmain : runCycle inputs (l1 ++ pr :: l2) es = runCycle inputs (l1 ++ l2) es := by
    rw [runCycle_append, runCycle_append, runCycle_cons, hskip]
  refine ⟨hmain, fun h1 h2 => ?_⟩
  rw [hmain, runCycle_append, runCycle_states_not_mem inputs l2 _ pr h2,
    runCycle_states_not_mem inputs l1 es pr h1]

/-- Concrete cycle inputs whose z-score is NaN for every pair. -/
def inputsAllNaN : (String × String) → PairInputs := fun _ => ⟨none, some 1, some 1⟩

/-- Concrete starting session state: capital 1000, all pairs flat, empty log. -/
def esStart : EngineState := ⟨1000, fun _ => flatState, []⟩

/-- C7 witness: a one-pair cycle whose z-score is NaN equals the empty
cycle and leaves that pair's state untouched. -/
theorem nan_skip_witness :
    runCycle inputsAllNaN [("BTC-USD", "ETH-USD")] esStart =
      runCycle inputsAllNaN [] esStart ∧
    (runCycle inputsAllNaN [("BTC-USD", "ETH-USD")] esStart).states ("BTC-USD", "ETH-USD") =
      esStart.states ("BTC-USD", "ETH-USD") := by
  have h := nan_skip inputsAllNaN ("BTC-USD", "ETH-USD") [] [] esStart (Or.inl rfl)
  exact ⟨h.1, h.2 (List.not_mem_nil _) (List.not_mem_nil _)⟩

theorem mem_zDefinedIdx (xs : List ℚ) (i : ℕ) (hi : i ∈ zDefinedIdx xs) :
    (rollingVarAt xs i).isSome ∧ rollingVarAt xs i ≠ some 0 := by
  rw [zDefinedIdx, List.mem_filter] at hi
  obtain ⟨-, hp⟩ := hi
  rw [stdReplacedAt] at hp
  cases hv : rollingVarAt xs i with
  | none => rw [hv] at hp; simp at hp
  | some v =>
      rw [hv] at hp
      by_cases h0 : v = 0
      · subst h0; simp at hp
      · exact ⟨rfl, by simp [h0]⟩

/-- C8: zero-std safety.  Every index of the z-score series that survives
the pipeline `((spread - sma) / std.replace(0, nan)).dropna()` has a
defined rolling window whose standard deviation is not zero (equivalently
whose sample variance is not zero), so the quotient is never formed with
a zero denominator; in particular the latest surviving index — the one
whose z-score drives decisions — has nonzero rolling std. -/
theorem zero_std_excluded (b : ℚ) (p1s p2s : List ℚ) (i : ℕ)
    (hi : i ∈ zDefinedIdx (spreadSeries b p1s p2s)) :
    (rollingVarAt (spreadSeries b p1s p2s) i).isSome ∧
    rollingVarAt (spreadSeries b p1s p2s) i ≠ some 0 ∧
    (∀ j, (zDefinedIdx (spreadSeries b p1s p2s)).getLast? = some j →
      rollingVarAt (spreadSeries b p1s p2s) j ≠ some 0) := by
  refine ⟨(mem_zDefinedIdx _ i hi).1, (mem_zDefinedIdx _ i hi).2, fun j hj => ?_⟩
  have hjmem : j ∈ zDefinedIdx (spreadSeries b p1s p2s) := by
    obtain ⟨hne, heq⟩ := List.mem_getLast?_eq_getLast (l := zDefinedIdx (spreadSeries b p1s p2s)) hj
    rw [heq]
    exact List.getLast_mem hne
  exact (mem_zDefinedIdx _ j hjmem).2

/-- Concrete 20-observation leg-1 price list: ten 0s then ten 1s. -/
def pricesC8 : List ℚ := List.replicate 10 0 ++ List.replicate 10 1

/-- C8 witness: with hedge coefficient 1 against a constant-zero leg 2,
index 19 survives the pipeline and its rolling variance is defined and
nonzero. -/
theorem zero_std_excluded_witness :
    (rollingVarAt (spreadSeries 1 pricesC8 (List.replicate 20 0)) 19).isSome ∧
    rollingVarAt (spreadSeries 1 pricesC8 (List.replicate 20 0)) 19 ≠ some 0 := by
  have h := zero_std_excluded 1 pricesC8 (List.replicate 20 0) 19
    (by
      rw [zDefinedIdx, List.mem_filter]
      refine ⟨?_, ?_⟩
      · simp [spreadSeries, pricesC8]
      · norm_num [stdReplacedAt, rollingVarAt, windowAt, spreadSeries, pricesC8,
          listSampleVar, listMean, List.zipWith_replicate, List.replicate_succ,
          List.replicate, List.zipWith])
  exact ⟨h.1, h.2.1⟩

theorem stepPair_records_cases (pr : String × String) (s : PairState) (c z p1 p2 : ℚ) :
    (stepPair pr s c z p1 p2).records = [] ∨
    (∃ rec, (stepPair pr s c z p1 p2).records = [rec] ∧ rec.pair = pr ∧
      ((s.position = 0 ∧ rec.action = TradeAction.ENTER) ∨
        (s.position ≠ 0 ∧ rec.action = TradeAction.EXIT))) := by
  by_cases hs0 : s.position = 0
  · by_cases hp : p1 = 0 ∨ p2 = 0
    · left; rw [stepPair_div_noop pr s c z p1 p2 hs0 hp]
    · by_cases hcost :
          round5 (LEG_ALLOCATION / p1) * p1 + round5 (LEG_ALLOCATION / p2) * p2 ≤ c
      · by_cases h1 : z < -ENTRY_Z
        · right
          rw [stepPair_entry1 pr s c z p1 p2 hs0 h1 hp hcost]
          exact ⟨_, rfl, rfl, Or.inl ⟨hs0, rfl⟩⟩
        · by_cases h2 : ENTRY_Z < z
          · right
            rw [stepPair_entry2 pr s c z p1 p2 hs0 h2 hp hcost]
            exact ⟨_, rfl, rfl, Or.inl ⟨hs0, rfl⟩⟩
          · left; rw [stepPair_flat_noop pr s c z p1 p2 hs0 h1 h2]
      · push_neg at hcost
        left; rw [stepPair_reject_noop pr s c z p1 p2 hs0 hcost]
  · by_cases hs1 : s.position = 1
    · by_cases hz : EXIT_Z < z
      · right
        rw [stepPair_exit1 pr s c z p1 p2 hs1 hz]
        exact ⟨_, rfl, rfl, Or.inr ⟨hs0, rfl⟩⟩
      · left; rw [stepPair_pos1_noop pr s c z p1 p2 hs1 hz]
    · by_cases hs2 : s.position = 2
      · by_cases hz : z < EXIT_Z
        · right
          rw [stepPair_exit2 pr s c z p1 p2 hs2 hz]
          exact ⟨_, rfl, rfl, Or.inr ⟨hs0, rfl⟩⟩
        · left; rw [stepPair_pos2_noop pr s c z p1 p2 hs2 hz]
      · left; rw [stepPair_other_noop pr s c z p1 p2 hs0 hs1 hs2]

theorem stepPairChecked_records_cases (pr : String × String) (s : PairState) (c : ℚ)
    (inp : PairInputs) :
    (stepPairChecked pr s c inp).records = [] ∨
    (∃ rec, (stepPairChecked pr s c inp).records = [rec] ∧ rec.pair = pr ∧
      ((s.position = 0 ∧ rec.action = TradeAction.ENTER) ∨
        (s.position ≠ 0 ∧ rec.action = TradeAction.EXIT))) := by
  obtain ⟨z, p1, p2⟩ := inp
  cases z with
  | none => left; rfl
  | some z =>
      cases p1 with
      | none => left; rfl
      | some p1 =>
          cases p2 with
          | none => left; rfl
          | some p2 => exact stepPair_records_cases pr s c z p1 p2

theorem stepPairChecked_records_pair (pr : String × String) (s : PairState) (c : ℚ)
    (inp : PairInputs) :
    ∀ r ∈ (stepPairChecked pr s c inp).records, r.pair = pr := by
  rcases stepPairChecked_records_cases pr s c inp with h | ⟨rec, h, hpr, -⟩ <;> rw [h]
  · intro r hr; exact absurd hr (List.not_mem_nil r)
  · intro r hr
    rw [List.mem_singleton] at hr
    rw [hr, hpr]

theorem stepPairChecked_records_len (pr : String × String) (s : PairState) (c : ℚ)
    (inp : PairInputs) :
    (stepPairChecked pr s c inp).records.length ≤ 1 := by
  rcases stepPairChecked_records_cases pr s c inp with h | ⟨rec, h, -, -⟩ <;> rw [h] <;> simp

theorem applyStep_log_filter_ne (inputs : (String × String) → PairInputs)
    (es : EngineState) (q pr : String × String) (h : q ≠ pr) :
    (applyStep inputs es q).log.filter (fun r => r.pair = pr) =
      es.log.filter (fun r => r.pair = pr) := by
  unfold applyStep
  dsimp only
  rw [List.filter_append]
  have hnil : (stepPairChecked q (es.states q) es.capital (inputs q)).records.filter
      (fun r => (r.pair = pr : Bool)) = [] := by
    rw [List.filter_eq_nil_iff]
    intro r hr
    have := stepPairChecked_records_pair q (es.states q) es.capital (inputs q) r hr
    simp [this, h]
  rw [hnil, List.append_nil]

theorem runCycle_log_filter_not_mem (inputs : (String × String) → PairInputs)
    (l : List (String × String)) (es : EngineState) (pr : String × String)
    (h : pr ∉ l) :
    (runCycle inputs l es).log.filter (fun r => r.pair = pr) =
      es.log.filter (fun r => r.pair = pr) := by
  induction l generalizing es with
  | nil => rfl
  | cons q t ih =>
      rw [runCycle_cons]
      have hq : q ≠ pr := fun he => h (he ▸ List.mem_cons_self q t)
      rw [ih _ (fun hm => h (List.mem_cons_of_mem q hm))]
      exact applyStep_log_filter_ne inputs es q pr hq

/-- C9: at most one transition per pair per cycle.  The cycle appends at
most one trade record keyed to any given pair (when the watchlist has no
duplicate pairs), and, since the branch on position is taken on a snapshot
of PairState read before any mutation, the pair's post-cycle state is
either its pre-cycle state or the result of exactly one state-machine
step applied to that pre-cycle snapshot — so an entry executed in a cycle
is never followed by an exit of the same pair within the same cycle. -/
theorem at_most_one_transition_per_pair (inputs : (String × String) → PairInputs)
    (pairs : List (String × String)) (es : EngineState) (pr : String × String)
    (hnd : pairs.Nodup) :
    ((runCycle inputs pairs es).log.filter (fun r => r.pair = pr)).length ≤
      (es.log.filter (fun r => r.pair = pr)).length + 1 ∧
    ((runCycle inputs pairs es).states pr = es.states pr ∨
      ∃ c, (runCycle inputs pairs es).states pr =
        (stepPairChecked pr (es.states pr) c (inputs pr)).state) := by
  induction pairs generalizing es with
  | nil => exact ⟨Nat.le_succ _, Or.inl rfl⟩
  | cons q t ih =>
      obtain ⟨hqt, hndt⟩ := List.nodup_cons.mp hnd
      rw [runCycle_cons]
      by_cases hq : q = pr
      · subst hq
        have hlog1 : (applyStep inputs es q).log.filter (fun r => r.pair = q) =
            es.log.filter (fun r => r.pair = q) ++
              (stepPairChecked q (es.states q) es.capital (inputs q)).records.filter
                (fun r => (r.pair = q : Bool)) := by
          unfold applyStep
          dsimp only
          rw [List.filter_append]
        constructor
        · rw [runCycle_log_filter_not_mem inputs t _ q hqt, hlog1]
          rw [List.length_append]
          have := List.length_filter_le (fun r => (r.pair = q : Bool))
            (stepPairChecked q (es.states q) es.capital (inputs q)).records
          have hlen := stepPairChecked_records_len q (es.states q) es.capital (inputs q)
          omega
        · right
          refine ⟨es.capital, ?_⟩
          rw [runCycle_states_not_mem inputs t _ q hqt]
          unfold applyStep
          simp
      · have hstates : (applyStep inputs es q).states pr = es.states pr :=
          applyStep_states_ne inputs es q pr (fun he => hq he.symm)
        have hlog : (applyStep inputs es q).log.filter (fun r => r.pair = pr) =
            es.log.filter (fun r => r.pair = pr) :=
          applyStep_log_filter_ne inputs es q pr hq
        obtain ⟨ih1, ih2⟩ := ih (applyStep inputs es q) hndt
        refine ⟨by rw [hlog] at ih1; exact ih1, ?_⟩
        rw [hstates] at ih2
        exact ih2

/-- C9 witness: a singleton watchlist cycle adds at most one record keyed
to its pair, and leaves that pair's state as at most one checked step of
its pre-cycle snapshot. -/
theorem at_most_one_transition_per_pair_witness :
    ((runCycle inputsAllNaN [("BTC-USD", "ETH-USD")] esStart).log.filter
        (fun r => r.pair = ("BTC-USD", "ETH-USD"))).length ≤
      (esStart.log.filter (fun r => r.pair = ("BTC-USD", "ETH-USD"))).length + 1 :=
  (at_most_one_transition_per_pair inputsAllNaN [("BTC-USD", "ETH-USD")] esStart
    ("BTC-USD", "ETH-USD") (List.nodup_singleton _)).1

theorem load_lookup_not_mem (pairs : List (String × String)) (blob : StateBlob)
    (k : String × String) (hk : k ∉ pairs) :
    ((load_cloud_state pairs blob).2).lookup k = none := by
  unfold load_cloud_state
  dsimp only
  induction pairs with
  | nil => rfl
  | cons q t ih =>
      have hkq : k ≠ q := fun he => hk (he ▸ List.mem_cons_self q t)
      rw [List.map_cons, List.lookup_cons]
      have : (k == q) = false := beq_false_of_ne hkq
      rw [this]
      exact ih (fun hm => hk (List.mem_cons_of_mem q hm))

/-- C10: watchlist-filtered restore.  For every successfully parsed
persisted blob, the restored state map contains exactly the configured
watchlist pairs (in watchlist order), a persisted entry keyed by any pair
not on the watchlist is silently discarded (it cannot be looked up in the
restored map), and the persisted portfolio balance is restored unchanged
regardless of what was discarded. -/
theorem load_restores_watchlist (pairs : List (String × String)) (blob : StateBlob) :
    ((load_cloud_state pairs blob).2.map Prod.fst = pairs) ∧
    (∀ k, k ∉ pairs → ((load_cloud_state pairs blob).2).lookup k = none) ∧
    (load_cloud_state pairs blob).1 = blob.capital := by
  refine ⟨?_, fun k hk => load_lookup_not_mem pairs blob k hk, rfl⟩
  unfold load_cloud_state
  simp only [List.map_map]
  have h : ∀ p ∈ pairs,
      (Prod.fst ∘ fun p : String × String =>
        (p, match List.lookup p blob.states with
            | some v => v
            | none => flatState)) p = id p := fun p _ => rfl
  rw [List.map_congr_left h, List.map_id]

/-- Concrete persisted blob: balance 5000 and one open-position entry
keyed by a pair that is no longer on the watchlist. -/
def blobC10 : StateBlob := ⟨5000, [(("SOL-USD", "AVAX-USD"), ⟨1, 2, 3, 4, 5⟩)]⟩

/-- C10 witness: restoring `blobC10` against the one-pair watchlist
[(BTC-USD, ETH-USD)] yields exactly that watchlist as keys, discards the
dropped pair's entry, and restores the balance 5000 unchanged. -/
theorem load_restores_watchlist_witness :
    (load_cloud_state [("BTC-USD", "ETH-USD")] blobC10).2.map Prod.fst =
      [("BTC-USD", "ETH-USD")] ∧
    ((load_cloud_state [("BTC-USD", "ETH-USD")] blobC10).2).lookup
      ("SOL-USD", "AVAX-USD") = none ∧
    (load_cloud_state [("BTC-USD", "ETH-USD")] blobC10).1 = 5000 := by
  have h := load_restores_watchlist [("BTC-USD", "ETH-USD")] blobC10
  exact ⟨h.1, h.2.1 ("SOL-USD", "AVAX-USD") (by simp), h.2.2⟩

end StatArb
